import Mathlib

/-!
Verification of the GoCart TypeScript SDK generator (go-cart-ecommerce/sdk-ts-gen).

The Go sources are shallowly embedded below.  Go maps are modelled as
association lists whose element order stands for the (unspecified) iteration
order of the map; wherever the source sorts the keys before use the embedding
sorts them too, and wherever the source iterates a map directly the embedding
consumes the list in its given order.  Strings are modelled over Lean `Char`
lists; the generator only manipulates ASCII identifiers, content types and
punctuation, on which Go's byte-wise and Lean's character-wise operations
agree.
-/

namespace SdkGen

/-! ## String utilities (src/unnamed/part_003: toCamelCase, toPascalCase,
toSnakeCase, getRefName, isAllUpper; src/Makefile: contains, removeDuplicates) -/

/-- Character-level model of Go `unicode.IsUpper` restricted to ASCII. -/
def isUpperA (c : Char) : Bool := 'A' ≤ c && c ≤ 'Z'

/-- Character-level model of Go `unicode.IsLetter` restricted to ASCII. -/
def isLetterA (c : Char) : Bool := ('A' ≤ c && c ≤ 'Z') || ('a' ≤ c && c ≤ 'z')

/-- Model of the word-separator test used by Go `strings.Title`: ASCII
alphanumerics and the underscore are not separators, everything else is. -/
def isSepGo (c : Char) : Bool :=
  !(('0' ≤ c && c ≤ '9') || ('a' ≤ c && c ≤ 'z') || ('A' ≤ c && c ≤ 'Z') || c = '_')

/-- Character list worker for `strings.Title`: a rune is title-cased when the
previous rune is a separator (the start of the string counts as one). -/
def titleChars : Bool → List Char → List Char
  | _, [] => []
  | prevSep, c :: rest =>
    (if prevSep then c.toUpper else c) :: titleChars (isSepGo c) rest

/-- Model of Go `strings.Title` (ASCII fragment). -/
def titleStr (s : String) : String := ⟨titleChars true s.data⟩

/-- Model of Go `strings.ToLower` (ASCII fragment; `Char.toLower` lowers
exactly the ASCII upper-case letters). -/
def lowerStr (s : String) : String := ⟨s.data.map Char.toLower⟩

/-- Split of a character list at every occurrence of `c`; models Go
`strings.Split` with a single-character separator (empty fields kept). -/
def splitOnChar (c : Char) : List Char → List (List Char)
  | [] => [[]]
  | x :: xs =>
    if x = c then [] :: splitOnChar c xs
    else
      match splitOnChar c xs with
      | h :: t => (x :: h) :: t
      | [] => [[x]]

/-- String-level split on a single separator character. -/
def splitStr (c : Char) (s : String) : List String :=
  (splitOnChar c s.data).map String.mk

/-- Model of `toCamelCase` (src/unnamed/part_003:825-846): drop one leading
underscore, split on underscores, lower-case the first part and
`strings.Title` the rest, then join. -/
def toCamelCase (input : String) : String :=
  if input = "" then ""
  else
    let input1 : String := if input.data.head? = some '_' then ⟨input.data.drop 1⟩ else input
    match splitStr '_' input1 with
    | [] => ""
    | p0 :: rest => String.join (lowerStr p0 :: rest.map titleStr)

/-- Model of `isAllUpper` (src/unnamed/part_003:887-894): no rune may be a
non-upper-case letter. -/
def isAllUpper (s : String) : Bool :=
  s.data.all (fun r => isUpperA r || !isLetterA r)

/-- Model of `toPascalCase` (src/unnamed/part_003:849-860): split on
underscores, keep all-upper acronym parts of length > 1, `strings.Title` the
others, join. -/
def toPascalCase (input : String) : String :=
  String.join ((splitStr '_' input).map
    (fun part => if isAllUpper part && part.length > 1 then part else titleStr part))

/-- Model of `getRefName` (src/unnamed/part_003:819-822): the last
slash-separated component of a `$ref` string. -/
def getRefName (ref : String) : String :=
  (splitStr '/' ref).getLastD ""

/-- Model of `contains` (src/Makefile:312-319): membership of a string in a
slice. -/
def containsStr (slice : List String) (str : String) : Bool :=
  slice.any (fun s => s = str)

/-- Worker for `removeDuplicates`, threading the `encountered` set. -/
def removeDupAux (seen : List String) : List String → List String
  | [] => []
  | v :: rest =>
    if containsStr seen v then removeDupAux seen rest
    else v :: removeDupAux (v :: seen) rest

/-- Model of `removeDuplicates` (src/generate_sdk_test.go:1304-1314): keep the
first occurrence of every string. -/
def removeDuplicates (elements : List String) : List String :=
  removeDupAux [] elements

/-- Byte-wise (here: character-wise) lexicographic comparison, the order used
by Go `sort.Strings` on ASCII data. -/
def lexLe : List Char → List Char → Bool
  | [], _ => true
  | _ :: _, [] => false
  | a :: as, b :: bs =>
    if a = b then lexLe as bs else decide (a < b)

/-- String comparison backing the model of `sort.Strings`. -/
def strLe (a b : String) : Bool := lexLe a.data b.data

/-- Insertion of a string into a sorted list, keeping order. -/
def insertSorted (x : String) : List String → List String
  | [] => [x]
  | y :: ys => if strLe x y then x :: y :: ys else y :: insertSorted x ys

/-- Model of Go `sort.Strings`: on a list of strings every correct sort
produces the same output, so insertion sort is a faithful model. -/
def sortStrings (l : List String) : List String := l.foldr insertSorted []

/-- Worker for Go `strings.Contains`: substring occurrence test. -/
def listContainsSub (sub : List Char) : List Char → Bool
  | [] => sub.isEmpty
  | c :: rest => sub.isPrefixOf (c :: rest) || listContainsSub sub rest

/-- Model of Go `strings.Contains`. -/
def strContainsSub (s sub : String) : Bool := listContainsSub sub.data s.data

/-- Model of Go `strings.HasPrefix`. -/
def strStartsWith (s pre : String) : Bool := pre.data.isPrefixOf s.data

end SdkGen

namespace SdkGen

/-! ## Schema model

Embedding of the kin-openapi data reachable by the generator: a `SchemaRef`
is a `$ref` string (empty when inline) plus an optional schema value (Go's
possibly-nil `*Schema`); a `Schema` keeps the fields the generator reads.
`properties` is the iteration sequence of the Go property map. -/

/-- Enum entry: the generator only distinguishes string values (which it
quotes) from everything else (printed with Go's `%v`); non-string values are
carried in already-printed form. -/
inductive JsonVal where
  | str (s : String)
  | other (printed : String)
deriving DecidableEq

mutual
inductive Schema where
  | mk (types : Option (List String)) (format : String) (nullable : Bool)
      (enum : List JsonVal) (required : List String)
      (properties : List (String × SchemaRef)) (items : Option SchemaRef) : Schema
inductive SchemaRef where
  | mk (ref : String) (value : Option Schema) : SchemaRef
end

def Schema.types : Schema → Option (List String)
  | .mk t _ _ _ _ _ _ => t

def Schema.format : Schema → String
  | .mk _ f _ _ _ _ _ => f

def Schema.nullable : Schema → Bool
  | .mk _ _ n _ _ _ _ => n

def Schema.enum : Schema → List JsonVal
  | .mk _ _ _ e _ _ _ => e

def Schema.required : Schema → List String
  | .mk _ _ _ _ r _ _ => r

def Schema.properties : Schema → List (String × SchemaRef)
  | .mk _ _ _ _ _ p _ => p

def Schema.items : Schema → Option SchemaRef
  | .mk _ _ _ _ _ _ i => i

def SchemaRef.ref : SchemaRef → String
  | .mk r _ => r

def SchemaRef.value : SchemaRef → Option Schema
  | .mk _ v => v

/-- Association-list lookup standing for a Go map read (`m[k]`). -/
def lookupAssoc {α : Type} (l : List (String × α)) (k : String) : Option α :=
  match l with
  | [] => none
  | (k1, v) :: rest => if k1 = k then some v else lookupAssoc rest k

/-- Model of `openapi3.Types.Is`: true when the type slice holds exactly the
one given type. -/
def typesIs (s : Schema) (t : String) : Bool :=
  s.types = some [t]

/-- Model of `typeMapping` (src/unnamed/part_003:102-110). -/
def typeMapping : List (String × String) :=
  [("integer", "number"), ("number", "number"), ("string", "string"),
   ("boolean", "boolean"), ("object", "any"), ("array", ""), ("null", "null")]

/-- Recognised cases of the `switch strings.ToLower(t)` in both `resolveType`
variants. -/
def recognizedType (tl : String) : Bool :=
  tl = "integer" || tl = "number" || tl = "string" || tl = "boolean" ||
  tl = "object" || tl = "array" || tl = "null"

end SdkGen

namespace SdkGen

/-- Quoting of one enum value as done by both `resolveType` variants
(src/generate_params.go:263-271, src/generate_sdk_test.go:1202-1210): string
values are camel-cased and single-quoted, other values printed with `%v`. -/
def quoteEnumCamel : JsonVal → String
  | .str s => "\x27" ++ toCamelCase s ++ "\x27"
  | .other p => p

/-- Loop body of the multi-type branch of `resolveTypeSdk`
(src/generate_sdk_test.go:1216-1256): the first recognised declared type
returns immediately (array item resolution, `binary` format check, or the
mapped scalar); unrecognised types accumulate `"any"`, deduplicated and
bar-joined only when no recognised type was met.  `itemStr` is the recursively
resolved item type when the schema declares items (resolved once up front; the
source resolves it lazily inside the `array` branch, with the same pure
result). -/
def sdkTypeLoop (format : String) (itemStr : Option String)
    (ts tsTypes : List String) : String :=
  match ts with
  | [] => String.intercalate " | " (removeDuplicates tsTypes)
  | t :: rest =>
    let tl := lowerStr t
    if recognizedType tl then
      match lookupAssoc typeMapping tl with
      | some mapped =>
        match itemStr with
        | some itemType =>
          if tl = "array" then itemType ++ "[]"
          else if tl = "string" && t = "string" then
            (if format = "binary" then "Blob" else "string")
          else mapped
        | none =>
          if tl = "string" && t = "string" then
            (if format = "binary" then "Blob" else "string")
          else mapped
      | none => sdkTypeLoop format itemStr rest tsTypes
    else
      sdkTypeLoop format itemStr rest (tsTypes ++ ["any"])

/-- Model of `resolveType` (src/generate_sdk_test.go:1186-1301), the variant
living next to the SDK-type-aware parameter generator.  The `additionalTypes`
return value is dropped: no branch of the source ever appends to it except by
forwarding an (always empty) recursive result.  The commented-out single-type
branch of the source is dead code and is not embedded. -/
def resolveTypeSdk (doc : List (String × SchemaRef)) (sr : SchemaRef) : String :=
  match sr with
  | .mk _ none => "any"
  | .mk ref (some (.mk types format _ enum _ _ items)) =>
    if ref ≠ "" then toPascalCase (getRefName ref)
    else if enum ≠ [] then String.intercalate " | " (enum.map quoteEnumCamel)
    else
      match types with
      | some ts =>
        if ts.length > 0 then
          let itemStr : Option String :=
            match items with
            | some it => some (resolveTypeSdk doc it)
            | none => none
          sdkTypeLoop format itemStr ts []
        else "any"
      | none => "any"

/-- Wrapper handling a nil `*openapi3.SchemaRef` argument
(src/generate_sdk_test.go:1188-1190). -/
def resolveTypeSdkO (doc : List (String × SchemaRef)) : Option SchemaRef → String
  | none => "any"
  | some sr => resolveTypeSdk doc sr

/-- Loop body of the multi-type branch of `resolveTypeParams`
(src/generate_params.go:277-302).  `itemStr` is the recursively resolved item
type when the schema declares items (resolved once up front; the source
resolves it lazily inside the `array` branch, with the same pure result). -/
def paramsTypeLoop (itemStr : Option String) (ts tsTypes : List String) : String :=
  match ts with
  | [] => String.intercalate " | " (removeDuplicates tsTypes)
  | t :: rest =>
    let tl := lowerStr t
    if recognizedType tl then
      match lookupAssoc typeMapping tl with
      | some mapped =>
        match itemStr with
        | some itemType =>
          if tl = "array" then
            paramsTypeLoop itemStr rest (tsTypes ++ [itemType ++ "[]"])
          else paramsTypeLoop itemStr rest (tsTypes ++ [mapped])
        | none => paramsTypeLoop itemStr rest (tsTypes ++ [mapped])
      | none => paramsTypeLoop itemStr rest (tsTypes ++ ["any"])
    else
      paramsTypeLoop itemStr rest (tsTypes ++ ["any"])

/-- Model of `resolveType` (src/generate_params.go:247-338), the legacy
parameter-generator variant: the multi-type branch accumulates the mapped type
of every declared type into a deduplicated bar-joined union.  The
`additionalTypes` return value is dropped (never populated), and the
single-type branch at src/generate_params.go:305-334 is unreachable (the
multi-type branch already covers length one) and is not embedded. -/
def resolveTypeParams (doc : List (String × SchemaRef)) (sr : SchemaRef) : String :=
  match sr with
  | .mk _ none => "any"
  | .mk ref (some (.mk types _ _ enum _ _ items)) =>
    if ref ≠ "" then toPascalCase (getRefName ref)
    else if enum ≠ [] then String.intercalate " | " (enum.map quoteEnumCamel)
    else
      match types with
      | some ts =>
        if ts.length > 0 then
          let itemStr : Option String :=
            match items with
            | some it => some (resolveTypeParams doc it)
            | none => none
          paramsTypeLoop itemStr ts []
        else "any"
      | none => "any"

end SdkGen

namespace SdkGen

/-! ## Document model and the types generator (src/Makefile, first variant:
the feature-complete one with owner-nullability and embedded promotion) -/

/-- Media type entry of a content map (`openapi3.MediaType`): only the schema
is read by the generator. -/
structure MediaTypeM where
  schema : Option SchemaRef

/-- Request body (`openapi3.RequestBody`): content-type → media type.  A Go
`nil` body pointer or `nil` value is modelled by `none` at the use site. -/
structure RequestBodyM where
  content : List (String × MediaTypeM)

/-- Response (`openapi3.Response`): content-type → media type. -/
structure ResponseM where
  content : List (String × MediaTypeM)

/-- Operation: the fields of `openapi3.Operation` the generator reads. -/
structure OperationM where
  operationID : String
  requestBody : Option RequestBodyM
  responses : List (Nat × ResponseM)

/-- Path item: one optional operation per HTTP method. -/
structure PathItemM where
  get : Option OperationM := none
  post : Option OperationM := none
  put : Option OperationM := none
  patch : Option OperationM := none
  delete : Option OperationM := none

/-- Document: paths in matching order plus the named component schemas
(`doc.Components.Schemas`, as an iteration list). -/
structure DocM where
  paths : List (String × PathItemM)
  schemas : List (String × SchemaRef)

/-- Lookup by numeric status code, modelling `Responses.Status(code)`. -/
def lookupNat {α : Type} (l : List (Nat × α)) (k : Nat) : Option α :=
  match l with
  | [] => none
  | (k1, v) :: rest => if k1 = k then some v else lookupNat rest k

/-- Go map assignment `m[k] = v`: replace the binding if present, else add. -/
def insertAssoc {α : Type} (l : List (String × α)) (k : String) (v : α) :
    List (String × α) :=
  match l with
  | [] => [(k, v)]
  | (k1, v1) :: rest => if k1 = k then (k, v) :: rest else (k1, v1) :: insertAssoc rest k v

/-- Model of `resolveSchemaRef` (src/Makefile:272-282). -/
def resolveSchemaRef (sr : SchemaRef) (schemas : List (String × SchemaRef)) :
    Except String SchemaRef :=
  if sr.ref = "" then .ok sr
  else
    match lookupAssoc schemas (getRefName sr.ref) with
    | some refSchema => .ok refSchema
    | none => .error ("reference " ++ getRefName sr.ref ++ " not found in components.schemas")

/-- Model of `isObject` (src/Makefile:285-297): an `object` entry in the type
list, or a non-empty property map. -/
def isObject (s : Schema) : Bool :=
  (match s.types with
   | some ts => ts.any (fun t => lowerStr t = "object")
   | none => false) || !s.properties.isEmpty

/-- Quoting of one enum value in `generateTypeScript` (src/Makefile:165-178):
strings double-quoted, everything else printed with `%v`. -/
def quoteEnumTypes : JsonVal → String
  | .str s => "\"" ++ s ++ "\""
  | .other p => p

/-- Body of the property loop of `generateTypeScript` (src/Makefile:203-226)
for one sorted property name; the `_embedded` skip stays in the caller.  The
source quirk is kept: `nullable` is read from the owning schema, and the
`| null` suffix is only ever emitted on the optional branch. -/
def renderPropGo (s : Schema) (schemas : List (String × SchemaRef))
    (propName : String) : String :=
  let prop := lookupAssoc s.properties propName
  let optional := !containsStr s.required propName
  let nullable := s.nullable
  let propType := resolveTypeSdkO schemas prop
  let camelPropName := toCamelCase propName
  if optional then
    if nullable then "  " ++ camelPropName ++ "?: " ++ propType ++ " | null;\n"
    else "  " ++ camelPropName ++ "?: " ++ propType ++ ";\n"
  else "  " ++ camelPropName ++ ": " ++ propType ++ ";\n"

/-- Body of the embedded-promotion loop of `generateTypeScript`
(src/Makefile:239-260) for one property of the resolved embedded schema:
optionality from the embedded schema's own `required` list, nullability from
the embedded property itself, and again no `| null` on the required branch. -/
def renderEmbPropGo (embSchema : Schema) (schemas : List (String × SchemaRef))
    (p : String × SchemaRef) : String :=
  let camelEmbeddedPropName := toCamelCase p.1
  let embeddedPropType := resolveTypeSdkO schemas (some p.2)
  let optional := !containsStr embSchema.required p.1
  let nullable := match p.2.value with | some v => v.nullable | none => false
  if optional then
    if nullable then "  " ++ camelEmbeddedPropName ++ "?: " ++ embeddedPropType ++ " | null;\n"
    else "  " ++ camelEmbeddedPropName ++ "?: " ++ embeddedPropType ++ ";\n"
  else "  " ++ camelEmbeddedPropName ++ ": " ++ embeddedPropType ++ ";\n"

/-- Model of `generateTypeScript` (src/Makefile:158-269), the feature-complete
variant: enum alias, or interface with sorted property names, the `_embedded`
property skipped and its (possibly `$ref`-resolved) schema's properties
promoted in map-iteration order, or a type alias otherwise.  The source
computes the alias type `tsType` before the object test; it is only used on
the alias branch, where this embedding computes it. -/
def generateTypeScript (name : String) (schemaRef : SchemaRef)
    (schemas : List (String × SchemaRef)) : Except String String :=
  match schemaRef.value with
  | none => .error ("schema " ++ name ++ " is nil")
  | some schema =>
    if !schema.enum.isEmpty then
      .ok ("export type " ++ toPascalCase name ++ " = " ++
        String.intercalate " | " (schema.enum.map quoteEnumTypes) ++ ";")
    else if isObject schema then
      let propNames := sortStrings (schema.properties.map Prod.fst)
      let top := "export interface " ++ toPascalCase name ++ " \x7b\n"
      let body := String.join (propNames.map
        (fun pn => if pn = "_embedded" then "" else renderPropGo schema schemas pn))
      match lookupAssoc schema.properties "_embedded" with
      | some embRef =>
        (match resolveSchemaRef embRef schemas with
         | .error e => .error ("failed to resolve embedded $ref for " ++ name ++ ": " ++ e)
         | .ok embResolved =>
           match embResolved.value with
           | none => .error ("embedded schema " ++ embRef.ref ++ " is nil")
           | some embSchema =>
             .ok (top ++ body ++
               String.join (embSchema.properties.map (renderEmbPropGo embSchema schemas)) ++
               "\x7d"))
      | none => .ok (top ++ body ++ "\x7d")
    else
      .ok ("export type " ++ toPascalCase name ++ " = " ++
        resolveTypeSdkO schemas (some schemaRef) ++ ";")

end SdkGen

namespace SdkGen

/-- Operations scanned by `gatherRequestBodies` (src/Makefile:110-114): the
`post`, `patch` and `put` entries of a path item.  The source ranges over a
Go map of the three, in unspecified order; a fixed order is used here — which
operation-identifier keys get recorded does not depend on it. -/
def pppOps (pi : PathItemM) : List (Option OperationM) :=
  [pi.post, pi.patch, pi.put]

/-- Value recorded for an operation whose multipart block passed: the
`application/json` block (src/Makefile:139-151) runs afterwards and, when it
also passes its checks, overwrites the recorded schema under the same key. -/
def jsonOverwrite (rb : RequestBodyM) (sr : SchemaRef) : SchemaRef :=
  match lookupAssoc rb.content "application/json" with
  | some mtj =>
    (match mtj.schema with
     | none => sr
     | some srj => if srj.ref ≠ "" then sr else srj)
  | none => sr

/-- Contribution of one operation to `gatherRequestBodies`
(src/Makefile:116-152).  The multipart block runs first; its `continue`
statements on a nil schema, an empty operation id or a `$ref` schema skip the
rest of the loop body, so the `application/json` block is then never reached.
When the multipart entry is recorded, the json block may still overwrite the
recorded schema (same key, via `jsonOverwrite`). -/
def opRequestBodyEntry (op : OperationM) : Option (String × SchemaRef) :=
  match op.requestBody with
  | none => none
  | some rb =>
    match lookupAssoc rb.content "multipart/form-data" with
    | some mt =>
      (match mt.schema with
       | none => none
       | some sr =>
         if op.operationID = "" then none
         else if sr.ref ≠ "" then none
         else some (op.operationID, jsonOverwrite rb sr))
    | none =>
      match lookupAssoc rb.content "application/json" with
      | some mtj =>
        (match mtj.schema with
         | none => none
         | some srj =>
           if op.operationID = "" then none
           else if srj.ref ≠ "" then none
           else some (op.operationID, srj))
      | none => none

/-- One loop step of `gatherRequestBodies`: record the operation's entry in
the result map, if any. -/
def gatherStep (acc : List (String × SchemaRef)) (op? : Option OperationM) :
    List (String × SchemaRef) :=
  match op? with
  | none => acc
  | some op =>
    match opRequestBodyEntry op with
    | none => acc
    | some kv => insertAssoc acc kv.1 kv.2

/-- Model of `gatherRequestBodies` (src/Makefile:101-155): scan every
post/patch/put operation and record operation id → request body schema. -/
def gatherRequestBodies (doc : DocM) : List (String × SchemaRef) :=
  doc.paths.foldl (fun acc p => (pppOps p.2).foldl gatherStep acc) []

/-- Model of `TypeDefinition` (src/Makefile:54-58). -/
structure TypeDefinition where
  name : String
  schemaRef : SchemaRef
  optional : Bool := false

/-- Model of `getTypeDefinitions` (src/Makefile:60-85): the named component
schemas in sorted name order, then one `<OperationId>Request` definition per
gathered request body (the source ranges over the gathered map in unspecified
order; the gathered list order is used here). -/
def getTypeDefinitions (doc : DocM) : List TypeDefinition :=
  (sortStrings (doc.schemas.map Prod.fst)).filterMap
    (fun n => (lookupAssoc doc.schemas n).map
      (fun sr => TypeDefinition.mk (toPascalCase n) sr false))
  ++ (gatherRequestBodies doc).map
    (fun p => TypeDefinition.mk (toPascalCase (p.1 ++ "Request")) p.2 false)

/-- Model of `generateTypes` (src/Makefile:87-97).  The source discards the
error value of `generateTypeScript` (`ts, _ := ...`); on an error the returned
text is the empty string, which is still written to the buffer followed by the
separator. -/
def generateTypes (doc : DocM) (typeDefinitions : List TypeDefinition) : String :=
  "// Auto-generated TypeScript types\n\n" ++
  String.join (typeDefinitions.map (fun td =>
    (match generateTypeScript td.name td.schemaRef doc.schemas with
     | .ok ts => ts
     | .error _ => "") ++ "\n\n"))

/-- Contribution of one `_embedded` property to `getEmbeddedKeysFromSchema`
(src/unnamed/part_003:495-507): objects without items, and arrays of
referenced items, yield their camel-cased name. -/
def embeddedKeyEntry (p : String × SchemaRef) : List String :=
  match p.2.value with
  | none => []
  | some pv =>
    (if typesIs pv "object" && pv.items.isNone then [toCamelCase p.1] else []) ++
    (match pv.items with
     | some it => if typesIs pv "array" && it.ref ≠ "" then [toCamelCase p.1] else []
     | none => [])

/-- Model of `getEmbeddedKeysFromSchema` (src/unnamed/part_003:490-511): walk
the properties of the `_embedded` property in map-iteration order.  Callers
guard a non-nil schema value (the Go code would dereference nil). -/
def getEmbeddedKeysFromSchema (sr : SchemaRef) : List String :=
  match sr.value with
  | none => []
  | some v =>
    match lookupAssoc v.properties "_embedded" with
    | none => []
    | some emb =>
      match emb.value with
      | none => []
      | some ev => ev.properties.foldl (fun acc p => acc ++ embeddedKeyEntry p) []

/-- One field append of the multipart/form-data block of `generateMethod`
(src/unnamed/part_003:611-621): object-valued fields are JSON-stringified
behind a truthiness guard, other fields appended behind a defined-and-non-null
guard.  A property with a nil schema value takes the non-object branch. -/
def formDataAppendBlock (p : String × SchemaRef) : String :=
  let isObjProp := match p.2.value with | some v => typesIs v "object" | none => false
  if isObjProp then
    "    if (req." ++ toCamelCase p.1 ++ ") \x7b\n      formData.append(\x27" ++ p.1 ++
      "\x27, JSON.stringify(req." ++ toCamelCase p.1 ++ "));\n    \x7d\n"
  else
    "    if (req." ++ toCamelCase p.1 ++ " !== undefined && req." ++ toCamelCase p.1 ++
      " !== null) \x7b\n      formData.append(\x27" ++ p.1 ++ "\x27, req." ++
      toCamelCase p.1 ++ ");\n    \x7d\n"

/-- Whole multipart field-append sequence of `generateMethod`
(src/unnamed/part_003:611-621), over the declared schema's property map in
iteration order. -/
def formDataAppends (props : List (String × SchemaRef)) : String :=
  String.join (props.map formDataAppendBlock)

end SdkGen

namespace SdkGen

/-- Quoting of one enum value in `resolveInlineType`
(src/unnamed/part_003:421-430, 454-462, 474-483): strings single-quoted
verbatim, others printed with `%v`. -/
def quoteEnumPlain : JsonVal → String
  | .str s => "\x27" ++ s ++ "\x27"
  | .other p => p

/-- Enum fallback and final `"any"` of `resolveInlineType`
(src/unnamed/part_003:473-487). -/
def enumOrAny (enum : List JsonVal) : String :=
  if enum ≠ [] then String.intercalate " | " (enum.map quoteEnumPlain) else "any"

/-- Union loop of `resolveInlineType` (src/unnamed/part_003:439-469):
`array`-typed entries with items contribute the item type plus `[]`, mapped
types contribute their mapping (the `"enum"` special case inside it is
unreachable, `"enum"` not being a key of `typeMapping`), anything else
contributes nothing.  `itemStr` is the pre-resolved item type. -/
def inlineUnionLoop (itemStr : Option String) : List String → List String
  | [] => []
  | t :: rest =>
    let openType := lowerStr t
    (match itemStr with
     | some s =>
       if openType = "array" then [s ++ "[]"]
       else (match lookupAssoc typeMapping openType with | some m => [m] | none => [])
     | none => (match lookupAssoc typeMapping openType with | some m => [m] | none => []))
    ++ inlineUnionLoop itemStr rest

/-- Model of `resolveInlineType` (src/unnamed/part_003:400-488).  Callers
guard a non-nil schema value (the Go code would dereference nil; `"any"`
here).  The item type is resolved once up front ($ref name or recursion), as
the source does lazily in each `array` branch with the same pure result.  The
`date-time → "Date"` branch is kept although it is unreachable ("string" maps
before it is consulted). -/
def resolveInlineType (sr : SchemaRef) : String :=
  match sr with
  | .mk _ none => "any"
  | .mk _ (some (.mk types format _ enum _ _ items)) =>
    let itemStr : Option String :=
      match items with
      | some it =>
        some (if it.ref ≠ "" then toPascalCase (getRefName it.ref) else resolveInlineType it)
      | none => none
    match types with
    | some ts =>
      match ts with
      | [t] =>
        let openType := lowerStr t
        if openType = "array" then
          (match itemStr with
           | some s => s ++ "[]"
           | none => "any[]")
        else
          (match lookupAssoc typeMapping openType with
           | some tsType => tsType
           | none =>
             if openType = "string" && format = "date-time" then "Date"
             else enumOrAny enum)
      | _ => String.intercalate " | " (inlineUnionLoop itemStr ts)
    | none => enumOrAny enum

/-- Model of `MethodArgumentDefinition` (src/unnamed/part_003:76-79); the
`Type` field reuses `TypeDefinition` with only its name (and, for the params
argument, `Optional`) populated. -/
structure MethodArgumentDefinition where
  name : String
  typeName : String
  typeOptional : Bool := false

/-- Model of `MethodArgumentDefinitions.HasParam`
(src/unnamed/part_003:83-90). -/
def hasArg (args : List MethodArgumentDefinition) (n : String) : Bool :=
  args.any (fun a => a.name = n)

/-- GET-branch argument synthesis of `getMethodDefinitions`
(src/unnamed/part_003:200-217): the `id: string` argument is added when the
method name does not contain `"list"` (`strings.Contains`, the source comment
reads "check if it is getOne or getAll"), and the optional
`<Name>Params`-typed `params` argument is always added. -/
def getMethodArgsGET (methodName : String) : List MethodArgumentDefinition :=
  (if !strContainsSub methodName "list" then
    [MethodArgumentDefinition.mk "id" "string" false]
  else []) ++
  [MethodArgumentDefinition.mk "params" (toPascalCase methodName ++ "Params") true]

/-- Request-type naming of `getMethodDefinitions`
(src/unnamed/part_003:139-162): the json block chooses the PascalCase `$ref`
name or `<Name>Request` for an inline schema, then the multipart block
overwrites the choice the same way when present. -/
def requestTypeFor (methodName : String) (op : OperationM) : String :=
  match op.requestBody with
  | none => ""
  | some rb =>
    let afterJson :=
      match lookupAssoc rb.content "application/json" with
      | some mt =>
        (match mt.schema with
         | some sr =>
           if sr.ref ≠ "" then toPascalCase (getRefName sr.ref)
           else toPascalCase methodName ++ "Request"
         | none => "")
      | none => ""
    match lookupAssoc rb.content "multipart/form-data" with
    | some mt =>
      (match mt.schema with
       | some sr =>
         if sr.ref ≠ "" then toPascalCase (getRefName sr.ref)
         else toPascalCase methodName ++ "Request"
       | none => afterJson)
    | none => afterJson

end SdkGen

namespace SdkGen

/-- Modelled from the spec: `isBinaryContentType`, the fixed table of binary
content types.  Its definition is missing from src/ (only its tests,
TestBinaryContentTypeDetection in src/generate_sdk_test.go, are present);
modelled from spec §4.3 and §8: `application/pdf`, `image/*`, `video/*`,
`audio/*`, `text/csv` are binary, `application/json`, `text/plain`,
`text/html` are not. -/
def isBinaryContentType (ct : String) : Bool :=
  ct = "application/pdf" || ct = "text/csv" ||
  strStartsWith ct "image/" || strStartsWith ct "video/" || strStartsWith ct "audio/"

/-- Modelled from the spec: JSON fallback of the feature-complete response
dispatch — the response type is the PascalCase `$ref` name or the inline
resolution of the schema, under content type `application/json`
(spec §4.3; the JSON-only skeleton is src/unnamed/part_003:381-390). -/
def pickJson (content : List (String × MediaTypeM)) : Option (String × String) :=
  match lookupAssoc content "application/json" with
  | some mt =>
    (match mt.schema with
     | some sr =>
       some (if sr.ref ≠ "" then toPascalCase (getRefName sr.ref) else resolveInlineType sr,
         "application/json")
     | none => none)
  | none => none

/-- Modelled from the spec: content-type dispatch of the feature-complete
`determineResponseType`, the three-result variant asserted by
TestDetermineResponseTypeWithHTML and TestHTMLResponsePriority in
src/generate_sdk_test.go but missing from src/.  Spec §4.3: binary content
types are detected first, an explicit `text/html` is treated as plain text
and checked ahead of `application/json` — HTML wins. -/
def pickContentHandler (content : List (String × MediaTypeM)) :
    Option (String × String) :=
  match content.find? (fun p => isBinaryContentType p.1 && p.2.schema.isSome) with
  | some p => some ("Blob", p.1)
  | none =>
    match lookupAssoc content "text/html" with
    | some mt =>
      (match mt.schema with
       | some _ => some ("string", "text/html")
       | none => pickJson content)
    | none => pickJson content

/-- Modelled from the spec: status scan of the feature-complete
`determineResponseType` — codes 200, 201, 202, 204 in priority order, the
first present response with a dispatchable body wins (spec §4.3; the scan
skeleton is src/unnamed/part_003:373-397). -/
def determineRespLoop (op : OperationM) : List Nat → String × String
  | [] => ("any", "")
  | code :: rest =>
    match lookupNat op.responses code with
    | some r =>
      (match pickContentHandler r.content with
       | some p => p
       | none => determineRespLoop op rest)
    | none => determineRespLoop op rest

/-- Modelled from the spec: the feature-complete `determineResponseType`
(response type and response content type; the schema result is dropped
here). -/
def determineResponseTypeFull (op : OperationM) : String × String :=
  determineRespLoop op [200, 201, 202, 204]

/-- Model of the SDK-type-aware `QueryParameter` structure (populated at
src/generate_sdk_test.go:1011-1018; it extends the part_003 variant with
`SDKType`).  `inn` stands for the Go field `In`. -/
structure QueryParameter where
  name : String
  inn : String := "query"
  description : String := ""
  schema : Option SchemaRef := none
  required : Bool := false
  sdkType : String := ""

/-- Document parameter as read from `operation.Parameters` (the `ParameterRef`
indirection of kin-openapi is collapsed; a nil ref or value is simply absent).
Extension values are carried like enum values: strings, or pre-printed other
values. -/
structure RawParam where
  name : String
  inn : String := "query"
  description : String := ""
  schema : Option SchemaRef := none
  required : Bool := false
  extensions : List (String × JsonVal) := []

/-- Model of `extractQueryParameters` (src/generate_sdk_test.go:996-1022):
keep query-located parameters and read the `x-gocart-sdk-type` extension,
empty when absent or not a string. -/
def extractQueryParameters (params : List RawParam) : List QueryParameter :=
  params.filterMap (fun param =>
    if param.inn = "query" then
      let sdkType :=
        match lookupAssoc param.extensions "x-gocart-sdk-type" with
        | some (.str s) => s
        | some (.other _) => ""
        | none => ""
      some (QueryParameter.mk param.name param.inn param.description param.schema
        param.required sdkType)
    else none)

/-- Text before the first `[`, modelling `param.Name[:strings.Index(param.Name, "[")]`. -/
def bracketBase (s : String) : String :=
  ⟨s.data.takeWhile (fun c => c ≠ '[')⟩

/-- Text between the first `[` and the final character, modelling
`param.Name[strings.Index(param.Name, "[")+1 : len(param.Name)-1]`. -/
def bracketNested (s : String) : String :=
  ⟨(((s.data).dropWhile (fun c => c ≠ '[')).drop 1).dropLast⟩

/-- Guard of the grouping branch: `strings.Contains(name, "[") &&
strings.HasSuffix(name, "]")`. -/
def hasBracketShape (s : String) : Bool :=
  s.data.any (fun c => c = '[') && s.data.getLast? = some ']'

/-- Go `grouped[base] = append(grouped[base], p)`: extend the group if
present, else add a new one. -/
def appendGroup (l : List (String × List QueryParameter)) (k : String)
    (p : QueryParameter) : List (String × List QueryParameter) :=
  match l with
  | [] => [(k, [p])]
  | (k1, v) :: rest =>
    if k1 = k then (k1, v ++ [p]) :: rest else (k1, v) :: appendGroup rest k p

/-- Model of `groupParameters` (src/generate_sdk_test.go:1094-1116): a
bracketed name `base[key]` is regrouped under `base` with local name `key`
(all other fields kept), anything else under its own name.  The Go map is
modelled as an association list in first-insertion order; the claims below
depend only on the key set and the per-key lists. -/
def groupParameters (params : List QueryParameter) :
    List (String × List QueryParameter) :=
  params.foldl
    (fun grouped param =>
      if hasBracketShape param.name then
        appendGroup grouped (bracketBase param.name)
          (QueryParameter.mk (bracketNested param.name) param.inn param.description
            param.schema param.required param.sdkType)
      else appendGroup grouped param.name param)
    []

/-- Field-type computation of `generateNestedInterface`
(src/generate_sdk_test.go:1153-1169): a non-empty SDK-type hint is taken
verbatim instead of schema resolution, `"any"` stands in for a missing
schema, and a nullable-declared schema then appends `" | null"`.  (Go reads
`param.Schema.Value.Nullable`; a non-nil schema with nil value would crash
there, modelled as no suffix.) -/
def nestedFieldType (doc : List (String × SchemaRef)) (p : QueryParameter) : String :=
  let tsType :=
    if p.sdkType ≠ "" then p.sdkType
    else
      match p.schema with
      | some sr => resolveTypeSdk doc sr
      | none => "any"
  match p.schema with
  | some sr =>
    (match sr.value with
     | some v => if v.nullable then tsType ++ " | null" else tsType
     | none => tsType)
  | none => tsType

end SdkGen

namespace SdkGen

/-! ## Concrete inputs used by the claim theorems -/

/-- An inline object-typed property schema. -/
def objPropRef : SchemaRef :=
  .mk "" (some (.mk (some ["object"]) "" false [] [] [] none))

/-- A parent schema whose `_embedded` object carries the given property
iteration sequence. -/
def embWrap (props : List (String × SchemaRef)) : SchemaRef :=
  .mk "" (some (.mk (some ["object"]) "" false [] []
    [("_embedded", .mk "" (some (.mk (some ["object"]) "" false [] [] props none)))] none))

/-- Iteration order one of the same two-property embedded map. -/
def embPropsA : List (String × SchemaRef) := [("items", objPropRef), ("users", objPropRef)]

/-- Iteration order two of the same two-property embedded map. -/
def embPropsB : List (String × SchemaRef) := [("users", objPropRef), ("items", objPropRef)]

/-- C1: the spec requires byte-identical output on byte-identical input, and
in particular that the emitted order of promoted `_embedded` properties, of
embedded-object key lists, and of multipart form-data field appends not depend
on the source map's iteration order.  The code iterates those three Go maps
directly, so two iteration orders of one and the same map — the two lists
below are permutations of each other, as a Go map presents its entries in
unspecified, run-dependent order — yield different embedded key lists,
different multipart append sequences, and different promoted interface text.
This refutes the determinism claim on the code; the spec's sorting requirement
is the stated intent, so the code is the bug. -/
theorem c1_map_iteration_order_dependence :
  embPropsA.Perm embPropsB ∧
  getEmbeddedKeysFromSchema (embWrap embPropsA) ≠ getEmbeddedKeysFromSchema (embWrap embPropsB) ∧
  formDataAppends embPropsA ≠ formDataAppends embPropsB ∧
  (generateTypeScript "Foo" (embWrap embPropsA) []).toOption ≠
    (generateTypeScript "Foo" (embWrap embPropsB) []).toOption := by
  refine ⟨List.Perm.swap _ _ _, ?_, ?_, ?_⟩ <;> decide

/-- The schema of the C3 input: an object whose `_embedded` property is an
unresolvable reference. -/
def c3FooRef : SchemaRef :=
  .mk "" (some (.mk (some ["object"]) "" false [] []
    [("_embedded", .mk "#/components/schemas/Missing" none)] none))

/-- The C3 document: one named schema `Foo`, no `Missing` component. -/
def c3Doc : DocM := ⟨[], [("Foo", c3FooRef)]⟩

/-- C3: the claim (with the spec) says an unresolvable `_embedded` reference
aborts the run with no output.  `generateTypeScript` does construct the fatal
error, but its caller `generateTypes` (src/Makefile:92, `ts, _ := ...`)
discards the error and writes the empty text plus separators, so generation
continues and output is produced — the failure is swallowed into empty type
text, contradicting the claim and the spec's stated error design.  This
theorem evaluates the embedded pipeline at the failing input. -/
theorem c3_embedded_error_swallowed :
  generateTypeScript "Foo" c3FooRef c3Doc.schemas =
    .error "failed to resolve embedded $ref for Foo: reference Missing not found in components.schemas" ∧
  generateTypes c3Doc (getTypeDefinitions c3Doc) =
    "// Auto-generated TypeScript types\n\n\n\n" := by
  exact ⟨rfl, rfl⟩

/-- The C6 input: a schema declaring the OpenAPI 3.1 type list
`["string", "null"]`. -/
def c6StringNull : SchemaRef :=
  .mk "" (some (.mk (some ["string", "null"]) "" false [] [] [] none))

/-- The C6 array input: type list `["array", "null"]` with string items. -/
def c6ArrayNull : SchemaRef :=
  .mk "" (some (.mk (some ["array", "null"]) "" false [] [] []
    (some (.mk "" (some (.mk (some ["string"]) "" false [] [] [] none))))))

/-- C6: the claim (spec rule 3) says a declared type list resolves to the
deduplicated union of each mapped type.  The legacy resolver
(src/generate_params.go) does exactly that, but the resolver of the
feature-complete generator (src/generate_sdk_test.go:1186-1301) returns on
the first recognised type — its own comments still read "Handle multiple
types (union types)" and "Join with | for union types", yet the accumulated
union is dead for recognised types.  On `["string","null"]` it yields
`string`, not `string | null`; on `["array","null"]` it yields `string[]`
alone.  The claim is right and the feature-complete code is the slip. -/
theorem c6_union_type_divergence :
  resolveTypeSdk [] c6StringNull = "string" ∧
  resolveTypeParams [] c6StringNull = "string | null" ∧
  resolveTypeSdk [] c6ArrayNull = "string[]" ∧
  resolveTypeParams [] c6ArrayNull = "string[] | null" := by
  exact ⟨rfl, rfl, rfl, rfl⟩

/-- C7 counterexample: the claim says the GET identifier argument is present
if and only if the operation name does not begin with `list`.  The code tests
`strings.Contains(methodName, "list")`: for `getWishlist` — which does not
begin with `list` but contains it — the identifier argument is omitted,
refuting the claim as stated. -/
theorem c7_counterexample :
  strStartsWith "getWishlist" "list" = false ∧
  hasArg (getMethodArgsGET "getWishlist") "id" = false := by
  decide

/-- C7 amended: for every GET operation, the synthesized method carries the
leading `id: string` argument exactly when the operation name does not
CONTAIN the substring `list` (not merely "does not begin with"); the optional
parameters argument is always present. -/
theorem c7_id_argument_rule (methodName : String) :
  hasArg (getMethodArgsGET methodName) "id" = !strContainsSub methodName "list" ∧
  hasArg (getMethodArgsGET methodName) "params" = true := by
  cases h : strContainsSub methodName "list" <;>
    simp [getMethodArgsGET, hasArg, h]

end SdkGen

namespace SdkGen

/-- The C8 input: a query parameter carrying the `DateRange` SDK-type hint on
a nullable-declared string schema. -/
def c8Param : QueryParameter :=
  ⟨"filter[created_at]", "query", "",
    some (.mk "" (some (.mk (some ["string"]) "" true [] [] [] none))), false, "DateRange"⟩

/-- C8 counterexample: the claim says a hinted parameter's generated field
type is exactly the hint string.  For a hinted parameter whose schema is
declared nullable, `generateNestedInterface` still appends `" | null"` after
the hint (src/generate_sdk_test.go:1166-1169), so the type is not exactly the
hint. -/
theorem c8_counterexample :
  c8Param.sdkType = "DateRange" ∧
  ((c8Param.schema.bind SchemaRef.value).map Schema.nullable = some true) ∧
  nestedFieldType [] c8Param = "DateRange | null" ∧
  nestedFieldType [] c8Param ≠ c8Param.sdkType := by
  refine ⟨rfl, rfl, rfl, ?_⟩
  decide

/-- C8 amended: for every query parameter carrying a non-empty SDK-type hint,
the generated field's base type is the hint string verbatim — schema-derived
type resolution is bypassed entirely — but a schema declared nullable still
appends `" | null"` after the hint. -/
theorem c8_hint_override_rule (doc : List (String × SchemaRef))
    (p : QueryParameter) (h : p.sdkType ≠ "") :
  nestedFieldType doc p =
    p.sdkType ++
      (if (p.schema.bind SchemaRef.value).map Schema.nullable = some true
       then " | null" else "") := by
  unfold nestedFieldType
  match hs : p.schema with
  | none => simp [hs, h]
  | some sr =>
    match hv : sr.value with
    | none => simp [hs, hv, h]
    | some v =>
      cases hn : v.nullable <;> simp [hs, hv, hn, h]

/-- C8 witness: the amended rule applied to the concrete hinted nullable
parameter. -/
theorem c8_hint_override_witness :
  c8Param.sdkType ≠ "" ∧
  nestedFieldType [] c8Param =
    c8Param.sdkType ++
      (if (c8Param.schema.bind SchemaRef.value).map Schema.nullable = some true
       then " | null" else "") :=
  ⟨by decide, c8_hint_override_rule [] c8Param (by decide)⟩

end SdkGen

namespace SdkGen

/-- C2: for every operation whose selected-status response declares both
`text/html` and `application/json` content (and nothing binary-classed), the
synthesized method resolves to the HTML handling path: the response type is
the text-decoded `string` under content type `text/html`, not the
JSON-decoded value.  Settled against the spec-modelled feature-complete
`determineResponseType` (see its doc comment); the `text/html` check runs
ahead of the `application/json` one, so HTML wins. -/
theorem c2_html_over_json (op : OperationM) (r : ResponseM) (mt : MediaTypeM)
    (h200 : lookupNat op.responses 200 = some r)
    (hhtml : lookupAssoc r.content "text/html" = some mt)
    (hschema : mt.schema.isSome = true)
    (hjson : (lookupAssoc r.content "application/json").isSome = true)
    (hnobin : r.content.all (fun p => !isBinaryContentType p.1) = true) :
    determineResponseTypeFull op = ("string", "text/html") := by
  have hfind : r.content.find? (fun p => isBinaryContentType p.1 && p.2.schema.isSome) = none := by
    refine List.find?_eq_none.mpr (fun x hx => ?_)
    have hb := List.all_eq_true.mp hnobin x hx
    simp only [Bool.not_eq_true'] at hb
    simp [hb]
  obtain ⟨v, hv⟩ := Option.isSome_iff_exists.mp hschema
  unfold determineResponseTypeFull determineRespLoop pickContentHandler
  simp only [h200, hfind, hhtml, hv]

/-- The C2 witness operation: a single GET-style operation with one `200`
response declaring both `text/html` and `application/json` (the document of
TestHTMLResponsePriority in src/generate_sdk_test.go). -/
def c2Op : OperationM :=
  ⟨"getPreview", none,
    [(200, ⟨[("text/html", ⟨some (.mk "" (some (.mk (some ["string"]) "" false [] [] [] none)))⟩),
             ("application/json", ⟨some (.mk "" (some (.mk (some ["object"]) "" false [] [] [] none)))⟩)]⟩)]⟩

/-- The `200` response of `c2Op`. -/
def c2Resp : ResponseM :=
  ⟨[("text/html", ⟨some (.mk "" (some (.mk (some ["string"]) "" false [] [] [] none)))⟩),
    ("application/json", ⟨some (.mk "" (some (.mk (some ["object"]) "" false [] [] [] none)))⟩)]⟩

/-- The `text/html` media type of `c2Resp`. -/
def c2Html : MediaTypeM :=
  ⟨some (.mk "" (some (.mk (some ["string"]) "" false [] [] [] none)))⟩

/-- C2 witness: the HTML-precedence theorem applied to the concrete
two-content-type response. -/
theorem c2_html_over_json_witness :
  lookupNat c2Op.responses 200 = some c2Resp ∧
  lookupAssoc c2Resp.content "text/html" = some c2Html ∧
  c2Html.schema.isSome = true ∧
  (lookupAssoc c2Resp.content "application/json").isSome = true ∧
  c2Resp.content.all (fun p => !isBinaryContentType p.1) = true ∧
  determineResponseTypeFull c2Op = ("string", "text/html") :=
  ⟨rfl, rfl, rfl, rfl, by decide,
    c2_html_over_json c2Op c2Resp c2Html rfl rfl rfl rfl (by decide)⟩

end SdkGen


namespace SdkGen

/-- Auxiliary: `takeWhile` up to the first left bracket keeps exactly the
bracket-free head of the name. -/
lemma takeWhile_bracket (base rest : List Char) (hb : '[' ∉ base) :
    (base ++ '[' :: rest).takeWhile (fun c => !decide (c = '[')) = base := by
  induction base with
  | nil => simp [List.takeWhile]
  | cons a as ih =>
    have ha : a ≠ '[' := fun h => hb (by simp [h])
    have hb2 : '[' ∉ as := fun h => hb (List.mem_cons_of_mem _ h)
    simp [List.takeWhile, ha, ih hb2]

/-- Auxiliary: `dropWhile` up to the first left bracket drops exactly the
bracket-free head of the name. -/
lemma dropWhile_bracket (base rest : List Char) (hb : '[' ∉ base) :
    (base ++ '[' :: rest).dropWhile (fun c => !decide (c = '[')) = '[' :: rest := by
  induction base with
  | nil => simp [List.dropWhile]
  | cons a as ih =>
    have ha : a ≠ '[' := fun h => hb (by simp [h])
    have hb2 : '[' ∉ as := fun h => hb (List.mem_cons_of_mem _ h)
    simp [List.dropWhile, ha, ih hb2]

/-- Auxiliary: a wire name of the shape `base[key]` passes the grouping
guard. -/
lemma hasBracketShape_of_shape (base key : List Char) :
    hasBracketShape ⟨base ++ '[' :: (key ++ [']'])⟩ = true := by
  unfold hasBracketShape
  rw [Bool.and_eq_true]
  constructor
  · exact List.any_eq_true.mpr ⟨'[', by simp, by simp⟩
  · have h1 : base ++ '[' :: (key ++ [']']) = (base ++ '[' :: key) ++ [']'] := by simp
    show decide ((String.mk (base ++ '[' :: (key ++ [']']))).data.getLast? = some ']') = true
    rw [show (String.mk (base ++ '[' :: (key ++ [']']))).data = base ++ '[' :: (key ++ [']']) from rfl,
      h1, List.getLast?_concat]
    simp

/-- C9: for every query parameter named `base[key]` (with a bracket-free
base), the grouper yields group `base` with local name `key` and all other
fields kept; re-assembling `base[key]` from the group name and the local name
recovers exactly the original wire name; and a parameter without a bracket
forms a single-entry group under its own name. -/
theorem c9_bracket_roundtrip (base key : List Char) (p : QueryParameter)
    (hb : '[' ∉ base)
    (hn : p.name = ⟨base ++ '[' :: (key ++ [']'])⟩) :
    groupParameters [p] =
      [(⟨base⟩, [QueryParameter.mk ⟨key⟩ p.inn p.description p.schema p.required p.sdkType])] ∧
    (⟨base⟩ ++ "[" ++ ⟨key⟩ ++ "]" : String) = p.name ∧
    (∀ q : QueryParameter, q.name.data.any (fun c => c = '[') = false →
      groupParameters [q] = [(q.name, [q])]) := by
  refine ⟨?_, ?_, ?_⟩
  · unfold groupParameters
    rw [List.foldl_cons, List.foldl_nil, hn, hasBracketShape_of_shape]
    have hbase : bracketBase ⟨base ++ '[' :: (key ++ [']'])⟩ = ⟨base⟩ := by
      unfold bracketBase
      simp only [ne_eq, decide_not]
      exact congrArg String.mk (takeWhile_bracket base (key ++ [']']) hb)
    have hnested : bracketNested ⟨base ++ '[' :: (key ++ [']'])⟩ = ⟨key⟩ := by
      unfold bracketNested
      simp only [ne_eq, decide_not]
      rw [dropWhile_bracket base (key ++ [']']) hb]
      simp [List.dropLast_concat]
    simp only [if_true, hbase, hnested]
    rfl
  · rw [hn]
    have hmk : ∀ a b : List Char, (String.mk a ++ String.mk b : String) = ⟨a ++ b⟩ :=
      fun a b => rfl
    rw [show ("[" : String) = ⟨['[']⟩ from rfl, show ("]" : String) = ⟨[']']⟩ from rfl,
      hmk, hmk, hmk]
    exact congrArg String.mk (by simp)
  · intro q hq
    unfold groupParameters
    rw [List.foldl_cons, List.foldl_nil]
    have hshape : hasBracketShape q.name = false := by
      unfold hasBracketShape
      simp [hq]
    rw [hshape]
    rfl

end SdkGen

namespace SdkGen

/-- The C9 witness parameter, named `filter[created_at]`. -/
def c9Param : QueryParameter := ⟨"filter[created_at]", "query", "", none, false, ""⟩

/-- C9 witness: the round-trip theorem applied at `filter[created_at]`. -/
theorem c9_bracket_roundtrip_witness :
  ('[' ∉ "filter".data) ∧
  (groupParameters [c9Param] =
    [(⟨"filter".data⟩,
      [QueryParameter.mk ⟨"created_at".data⟩ c9Param.inn c9Param.description
        c9Param.schema c9Param.required c9Param.sdkType])] ∧
   (⟨"filter".data⟩ ++ "[" ++ ⟨"created_at".data⟩ ++ "]" : String) = c9Param.name ∧
   (∀ q : QueryParameter, q.name.data.any (fun c => c = '[') = false →
     groupParameters [q] = [(q.name, [q])])) :=
  ⟨by decide, c9_bracket_roundtrip "filter".data "created_at".data c9Param (by decide) rfl⟩

end SdkGen

namespace SdkGen

/-- Auxiliary: pointwise equal functions map lists equally. -/
lemma map_congr_mem {α β : Type} (l : List α) (f g : α → β)
    (h : ∀ a ∈ l, f a = g a) : l.map f = l.map g := by
  induction l with
  | nil => rfl
  | cons a as ih =>
    simp only [List.map_cons, h a (by simp), ih (fun b hb => h b (by simp [hb]))]

/-- Auxiliary: a key that `lookupAssoc` misses is not among the keys. -/
lemma not_mem_of_lookupAssoc_none {α : Type} (k : String) :
    ∀ (l : List (String × α)), lookupAssoc l k = none → k ∉ l.map Prod.fst
  | [], _ => by simp
  | (k1, v) :: rest, h => by
    have hk : ¬ k1 = k := by
      intro e
      simp [lookupAssoc, e] at h
    have h2 : lookupAssoc rest k = none := by
      simpa [lookupAssoc, hk] using h
    have ih := not_mem_of_lookupAssoc_none k rest h2
    simp only [List.map_cons, List.mem_cons]
    rintro (e | e)
    · exact hk e.symm
    · exact ih e

/-- Auxiliary: membership is invariant under sorted insertion. -/
lemma mem_insertSorted (x y : String) (l : List String) :
    x ∈ insertSorted y l ↔ x = y ∨ x ∈ l := by
  induction l with
  | nil => simp [insertSorted]
  | cons a as ih =>
    unfold insertSorted
    by_cases h : strLe y a
    · simp [h, List.mem_cons]
    · simp [h, List.mem_cons, ih]
      tauto

/-- Auxiliary: membership is invariant under the model of `sort.Strings`. -/
lemma mem_sortStrings (x : String) (l : List String) :
    x ∈ sortStrings l ↔ x ∈ l := by
  unfold sortStrings
  induction l with
  | nil => simp
  | cons a as ih => simp [List.foldr_cons, mem_insertSorted, ih]

/-- Auxiliary: the property line of `generateTypeScript`, restated in the
shape of the (amended) spec rule: the optional marker appears exactly when
the property is not required, and the `| null` suffix exactly when the
property is optional AND the owning schema is nullable. -/
lemma renderPropGo_spec (schema : Schema) (schemas : List (String × SchemaRef))
    (pn : String) :
    renderPropGo schema schemas pn =
      "  " ++ toCamelCase pn ++
      (if containsStr schema.required pn then ": " else "?: ") ++
      resolveTypeSdkO schemas (lookupAssoc schema.properties pn) ++
      (if !containsStr schema.required pn && schema.nullable then " | null;\n" else ";\n") := by
  unfold renderPropGo
  cases hr : containsStr schema.required pn <;> cases hn : schema.nullable <;>
    simp [hr, hn]

/-- Auxiliary: the embedded-promotion line of `generateTypeScript`, restated
in the shape of the (amended) spec rule: optionality from the embedded
schema's own required list, and the `| null` suffix exactly when the promoted
property is optional AND itself declared nullable. -/
lemma renderEmbPropGo_spec (embSchema : Schema) (schemas : List (String × SchemaRef))
    (p : String × SchemaRef) :
    renderEmbPropGo embSchema schemas p =
      "  " ++ toCamelCase p.1 ++
      (if containsStr embSchema.required p.1 then ": " else "?: ") ++
      resolveTypeSdkO schemas (some p.2) ++
      (if !containsStr embSchema.required p.1 && (p.2.value.map Schema.nullable).getD false
       then " | null;\n" else ";\n") := by
  unfold renderEmbPropGo
  rcases hv : p.2.value with _ | v
  · cases hr : containsStr embSchema.required p.1 <;> simp [hr, hv]
  · cases hr : containsStr embSchema.required p.1 <;> cases hn : v.nullable <;>
      simp [hr, hv, hn]

/-- C5 (amended): for every inline object schema without enum values and
without an `_embedded` property, the rendered interface consists of one line
per property in sorted name order, where each line carries the optional
marker exactly when the property is missing from the owning schema's required
list and the `| null` suffix exactly when the property is optional and the
OWNING schema (not the property) declares itself nullable — required
properties never receive the suffix, and the individual property's own
nullability is never consulted. -/
theorem c5_owner_nullability (name : String) (schema : Schema)
    (schemas : List (String × SchemaRef))
    (henum : schema.enum = [])
    (hobj : isObject schema = true)
    (hemb : lookupAssoc schema.properties "_embedded" = none) :
    generateTypeScript name (.mk "" (some schema)) schemas =
      .ok ("export interface " ++ toPascalCase name ++ " \x7b\n" ++
        String.join ((sortStrings (schema.properties.map Prod.fst)).map (fun pn =>
          "  " ++ toCamelCase pn ++
          (if containsStr schema.required pn then ": " else "?: ") ++
          resolveTypeSdkO schemas (lookupAssoc schema.properties pn) ++
          (if !containsStr schema.required pn && schema.nullable then " | null;\n" else ";\n"))) ++
        "\x7d") := by
  have hne : ∀ pn ∈ sortStrings (schema.properties.map Prod.fst), ¬ pn = "_embedded" := by
    intro pn hpn he
    exact not_mem_of_lookupAssoc_none "_embedded" schema.properties hemb
      (he ▸ (mem_sortStrings pn _).mp hpn)
  have hjoin :
      (sortStrings (schema.properties.map Prod.fst)).map
        (fun pn => if pn = "_embedded" then "" else renderPropGo schema schemas pn) =
      (sortStrings (schema.properties.map Prod.fst)).map (fun pn =>
        "  " ++ toCamelCase pn ++
        (if containsStr schema.required pn then ": " else "?: ") ++
        resolveTypeSdkO schemas (lookupAssoc schema.properties pn) ++
        (if !containsStr schema.required pn && schema.nullable then " | null;\n" else ";\n")) := by
    refine map_congr_mem _ _ _ (fun pn hpn => ?_)
    rw [if_neg (hne pn hpn), renderPropGo_spec]
  unfold generateTypeScript
  simp only [SchemaRef.value, henum, List.isEmpty_nil, Bool.not_true, Bool.false_eq_true,
    if_false, hobj, if_true, hemb, hjoin]

end SdkGen

namespace SdkGen

/-- C4 (amended): for every inline object schema without enum values whose
`_embedded` property resolves to a schema, the rendered interface contains no
`_embedded` line (the sorted property loop skips that name) and every
property of the resolved embedded schema is promoted to the top level, in the
embedded map's iteration order, optional exactly when missing from the
embedded schema's own required list and `| null`-suffixed exactly when it is
optional AND the embedded property itself is declared nullable — required
promoted properties never receive the suffix. -/
theorem c4_embedded_promotion (name : String) (schema embSchema : Schema)
    (schemas : List (String × SchemaRef)) (embRef embResolved : SchemaRef)
    (henum : schema.enum = [])
    (hobj : isObject schema = true)
    (hemb : lookupAssoc schema.properties "_embedded" = some embRef)
    (hres : resolveSchemaRef embRef schemas = .ok embResolved)
    (hval : embResolved.value = some embSchema) :
    generateTypeScript name (.mk "" (some schema)) schemas =
      .ok ("export interface " ++ toPascalCase name ++ " \x7b\n" ++
        String.join ((sortStrings (schema.properties.map Prod.fst)).map
          (fun pn => if pn = "_embedded" then "" else renderPropGo schema schemas pn)) ++
        String.join (embSchema.properties.map (fun p =>
          "  " ++ toCamelCase p.1 ++
          (if containsStr embSchema.required p.1 then ": " else "?: ") ++
          resolveTypeSdkO schemas (some p.2) ++
          (if !containsStr embSchema.required p.1 && (p.2.value.map Schema.nullable).getD false
           then " | null;\n" else ";\n"))) ++
        "\x7d") := by
  have hjoin : embSchema.properties.map (renderEmbPropGo embSchema schemas) =
      embSchema.properties.map (fun p =>
        "  " ++ toCamelCase p.1 ++
        (if containsStr embSchema.required p.1 then ": " else "?: ") ++
        resolveTypeSdkO schemas (some p.2) ++
        (if !containsStr embSchema.required p.1 && (p.2.value.map Schema.nullable).getD false
         then " | null;\n" else ";\n")) :=
    map_congr_mem _ _ _ (fun p _ => renderEmbPropGo_spec embSchema schemas p)
  unfold generateTypeScript
  simp only [SchemaRef.value] at hval
  simp only [SchemaRef.value, henum, List.isEmpty_nil, Bool.not_true, Bool.false_eq_true,
    if_false, hobj, if_true, hemb, hres, hval, hjoin]

/-- The C5 counterexample schema: the owning schema is nullable and property
`a` is required (and itself not nullable). -/
def c5Schema : Schema :=
  .mk (some ["object"]) "" true [] ["a"]
    [("a", .mk "" (some (.mk (some ["string"]) "" false [] [] [] none)))] none

/-- C5 counterexample: the claim says every rendered property is
`| null`-suffixed exactly when the owning schema declares itself nullable.
The owning schema here is nullable, yet its required property `a` is rendered
without the suffix — the code only suffixes optional properties. -/
theorem c5_counterexample :
  c5Schema.nullable = true ∧
  containsStr c5Schema.required "a" = true ∧
  (generateTypeScript "Foo" (.mk "" (some c5Schema)) []).toOption =
    some "export interface Foo \x7b\n  a: string;\n\x7d" ∧
  strContainsSub (((generateTypeScript "Foo" (.mk "" (some c5Schema)) []).toOption).getD "")
    " | null" = false := by
  refine ⟨rfl, rfl, rfl, ?_⟩
  decide

/-- C5 witness: the amended owner-nullability rule applied to the concrete
nullable-owner schema. -/
theorem c5_owner_nullability_witness :
  (c5Schema.enum = [] ∧ isObject c5Schema = true ∧
   lookupAssoc c5Schema.properties "_embedded" = none) ∧
  generateTypeScript "Foo" (.mk "" (some c5Schema)) [] =
    .ok ("export interface " ++ toPascalCase "Foo" ++ " \x7b\n" ++
      String.join ((sortStrings (c5Schema.properties.map Prod.fst)).map (fun pn =>
        "  " ++ toCamelCase pn ++
        (if containsStr c5Schema.required pn then ": " else "?: ") ++
        resolveTypeSdkO [] (lookupAssoc c5Schema.properties pn) ++
        (if !containsStr c5Schema.required pn && c5Schema.nullable then " | null;\n" else ";\n"))) ++
      "\x7d") :=
  ⟨⟨rfl, rfl, rfl⟩, c5_owner_nullability "Foo" c5Schema [] rfl rfl rfl⟩

/-- The C4 counterexample: the embedded property `a` is required in the
embedded schema and itself declared nullable. -/
def c4EmbPropRef : SchemaRef := .mk "" (some (.mk (some ["string"]) "" true [] [] [] none))

/-- The embedded schema of the C4 counterexample. -/
def c4EmbSchema : Schema :=
  .mk (some ["object"]) "" false [] ["a"] [("a", c4EmbPropRef)] none

/-- The enclosing schema of the C4 counterexample. -/
def c4Schema : Schema :=
  .mk (some ["object"]) "" false [] []
    [("_embedded", .mk "" (some c4EmbSchema))] none

/-- C4 counterexample: the claim says a promoted property is
`| null`-suffixed exactly when the embedded property itself is declared
nullable.  Property `a` is declared nullable but also required in the
embedded schema, and the rendered interface carries no suffix — the code only
suffixes optional promoted properties. -/
theorem c4_counterexample :
  (c4EmbPropRef.value.map Schema.nullable).getD false = true ∧
  containsStr c4EmbSchema.required "a" = true ∧
  (generateTypeScript "Foo" (.mk "" (some c4Schema)) []).toOption =
    some "export interface Foo \x7b\n  a: string;\n\x7d" ∧
  strContainsSub (((generateTypeScript "Foo" (.mk "" (some c4Schema)) []).toOption).getD "")
    " | null" = false := by
  refine ⟨rfl, rfl, rfl, ?_⟩
  decide

/-- C4 witness: the amended embedded-promotion rule applied to the concrete
schema. -/
theorem c4_embedded_promotion_witness :
  (c4Schema.enum = [] ∧ isObject c4Schema = true ∧
   lookupAssoc c4Schema.properties "_embedded" = some (SchemaRef.mk "" (some c4EmbSchema)) ∧
   resolveSchemaRef (SchemaRef.mk "" (some c4EmbSchema)) [] = .ok (SchemaRef.mk "" (some c4EmbSchema)) ∧
   (SchemaRef.mk "" (some c4EmbSchema)).value = some c4EmbSchema) ∧
  generateTypeScript "Foo" (.mk "" (some c4Schema)) [] =
    .ok ("export interface " ++ toPascalCase "Foo" ++ " \x7b\n" ++
      String.join ((sortStrings (c4Schema.properties.map Prod.fst)).map
        (fun pn => if pn = "_embedded" then "" else renderPropGo c4Schema [] pn)) ++
      String.join (c4EmbSchema.properties.map (fun p =>
        "  " ++ toCamelCase p.1 ++
        (if containsStr c4EmbSchema.required p.1 then ": " else "?: ") ++
        resolveTypeSdkO [] (some p.2) ++
        (if !containsStr c4EmbSchema.required p.1 && (p.2.value.map Schema.nullable).getD false
         then " | null;\n" else ";\n"))) ++
      "\x7d") :=
  ⟨⟨rfl, rfl, rfl, rfl, rfl⟩,
    c4_embedded_promotion "Foo" c4Schema c4EmbSchema []
      (SchemaRef.mk "" (some c4EmbSchema)) (SchemaRef.mk "" (some c4EmbSchema))
      rfl rfl rfl rfl rfl⟩

end SdkGen

namespace SdkGen

/-- Auxiliary: lookup after a Go map assignment. -/
lemma lookupAssoc_insertAssoc {α : Type} (k : String) (v : α) (k2 : String) :
    ∀ (l : List (String × α)),
      lookupAssoc (insertAssoc l k v) k2 = if k = k2 then some v else lookupAssoc l k2
  | [] => by
    by_cases h : k = k2 <;> simp [insertAssoc, lookupAssoc, h]
  | (k1, v1) :: rest => by
    by_cases h1 : k1 = k
    · subst h1
      by_cases h2 : k1 = k2 <;> simp [insertAssoc, lookupAssoc, h2]
    · have ih := lookupAssoc_insertAssoc k v k2 rest
      by_cases h2 : k1 = k2
      · subst h2
        have h3 : ¬ k = k1 := fun e => h1 e.symm
        simp [insertAssoc, lookupAssoc, h1, h3]
      · by_cases h3 : k = k2
        · subst h3
          simp [insertAssoc, lookupAssoc, h1, h2, ih]
        · simp [insertAssoc, lookupAssoc, h1, h2, h3, ih]

/-- Auxiliary: effect of one gather step on key membership. -/
lemma lookup_gatherStep (acc : List (String × SchemaRef)) (op? : Option OperationM)
    (opID : String) :
    (lookupAssoc (gatherStep acc op?) opID).isSome = true ↔
    ((∃ o v, op? = some o ∧ opRequestBodyEntry o = some (opID, v)) ∨
     (lookupAssoc acc opID).isSome = true) := by
  match op? with
  | none => simp [gatherStep]
  | some o =>
    match he : opRequestBodyEntry o with
    | none => simp [gatherStep, he]
    | some kv =>
      obtain ⟨k, v⟩ := kv
      by_cases hk : k = opID
      · subst hk
        simp [gatherStep, he, lookupAssoc_insertAssoc]
      · simp [gatherStep, he, lookupAssoc_insertAssoc, hk]

end SdkGen

namespace SdkGen

/-- Auxiliary: key membership after folding the gather step over a list of
operations. -/
lemma lookup_foldl_gatherStep (opID : String) :
    ∀ (ops : List (Option OperationM)) (acc : List (String × SchemaRef)),
      (lookupAssoc (ops.foldl gatherStep acc) opID).isSome = true ↔
      ((∃ o v, some o ∈ ops ∧ opRequestBodyEntry o = some (opID, v)) ∨
       (lookupAssoc acc opID).isSome = true)
  | [], acc => by simp
  | op? :: rest, acc => by
    rw [List.foldl_cons, lookup_foldl_gatherStep opID rest, lookup_gatherStep]
    constructor
    · rintro (⟨o, v, hmem, he⟩ | (⟨o, v, heq, he⟩ | hacc))
      · exact Or.inl ⟨o, v, List.mem_cons_of_mem _ hmem, he⟩
      · exact Or.inl ⟨o, v, heq ▸ List.mem_cons_self _ _, he⟩
      · exact Or.inr hacc
    · rintro (⟨o, v, hmem, he⟩ | hacc)
      · rcases List.mem_cons.mp hmem with h | h
        · exact Or.inr (Or.inl ⟨o, v, h.symm, he⟩)
        · exact Or.inl ⟨o, v, h, he⟩
      · exact Or.inr (Or.inr hacc)

/-- Auxiliary: key membership after folding over a list of paths. -/
lemma lookup_gather_paths (opID : String) :
    ∀ (paths : List (String × PathItemM)) (acc : List (String × SchemaRef)),
      (lookupAssoc (paths.foldl (fun acc p => (pppOps p.2).foldl gatherStep acc) acc)
        opID).isSome = true ↔
      ((∃ pi o v, pi ∈ paths.map Prod.snd ∧ some o ∈ pppOps pi ∧
          opRequestBodyEntry o = some (opID, v)) ∨
       (lookupAssoc acc opID).isSome = true)
  | [], acc => by simp
  | p :: rest, acc => by
    rw [List.foldl_cons, lookup_gather_paths opID rest, lookup_foldl_gatherStep]
    constructor
    · rintro (⟨pi, o, v, hmem, hop, he⟩ | (⟨o, v, hop, he⟩ | hacc))
      · refine Or.inl ⟨pi, o, v, ?_, hop, he⟩
        simp only [List.map_cons, List.mem_cons]
        exact Or.inr hmem
      · refine Or.inl ⟨p.2, o, v, ?_, hop, he⟩
        simp only [List.map_cons, List.mem_cons]
        exact Or.inl trivial
      · exact Or.inr hacc
    · rintro (⟨pi, o, v, hmem, hop, he⟩ | hacc)
      · have hmem2 : pi ∈ p.2 :: rest.map Prod.snd := by
          simpa only [List.map_cons] using hmem
        rcases List.mem_cons.mp hmem2 with h | h
        · exact Or.inr (Or.inl ⟨o, v, h ▸ hop, he⟩)
        · exact Or.inl ⟨pi, o, v, h, hop, he⟩
      · exact Or.inr (Or.inr hacc)

end SdkGen

namespace SdkGen

/-- Auxiliary: characterization of when an operation contributes a request
body entry under a given key.  The multipart block's `continue` statements
make a nil, `$ref` or unnamed multipart schema suppress the
`application/json` check entirely. -/
lemma opRequestBodyEntry_iff (o : OperationM) (opID : String) :
    (∃ v, opRequestBodyEntry o = some (opID, v)) ↔
    (o.operationID = opID ∧ opID ≠ "" ∧
     ∃ rb, o.requestBody = some rb ∧
       ((∃ mt sr, lookupAssoc rb.content "multipart/form-data" = some mt ∧
           mt.schema = some sr ∧ sr.ref = "") ∨
        (lookupAssoc rb.content "multipart/form-data" = none ∧
         ∃ mt sr, lookupAssoc rb.content "application/json" = some mt ∧
           mt.schema = some sr ∧ sr.ref = ""))) := by
  unfold opRequestBodyEntry
  match hrb : o.requestBody with
  | none => simp [hrb]
  | some rb =>
    match hmp : lookupAssoc rb.content "multipart/form-data" with
    | some mt =>
      match hms : mt.schema with
      | none => simp [hrb, hmp, hms]
      | some sr =>
        by_cases hid : o.operationID = ""
        · simp [hrb, hmp, hms, hid]
          intro h
          exact absurd h.symm
        · by_cases href : sr.ref = ""
          · simp [hrb, hmp, hms, hid, href]
            exact fun h => h ▸ hid
          · simp [hrb, hmp, hms, hid, href]
    | none =>
      match hj : lookupAssoc rb.content "application/json" with
      | none => simp [hrb, hmp, hj]
      | some mtj =>
        match hjs : mtj.schema with
        | none => simp [hrb, hmp, hj, hjs]
        | some srj =>
          by_cases hid : o.operationID = ""
          · simp [hrb, hmp, hj, hjs, hid]
            intro h
            exact absurd h.symm
          · by_cases hjr : srj.ref = ""
            · simp [hrb, hmp, hj, hjs, hid, hjr]
              exact fun h => h ▸ hid
            · simp [hrb, hmp, hj, hjs, hid, hjr]

end SdkGen

namespace SdkGen

/-- C10 (amended): a synthesized `<OperationId>Request` entry is gathered for
a POST/PATCH/PUT operation exactly when the operation identifier is non-empty
and either (a) the request body declares `multipart/form-data` with an inline
(non-`$ref`) schema, or (b) it declares no `multipart/form-data` content at
all and declares `application/json` with an inline schema.  A multipart entry
whose schema is missing or a `$ref` short-circuits the scan (`continue`) and
suppresses the `application/json` fallback for that operation — the original
claim's plain disjunction fails there.  For a `$ref` json body with no
multipart content, the referenced schema's PascalCase name is used for the
payload argument instead. -/
theorem c10_request_type_emission (doc : DocM) (opID : String) :
    ((lookupAssoc (gatherRequestBodies doc) opID).isSome = true ↔
      (∃ pi o, pi ∈ doc.paths.map Prod.snd ∧ some o ∈ pppOps pi ∧
        o.operationID = opID ∧ opID ≠ "" ∧
        ∃ rb, o.requestBody = some rb ∧
          ((∃ mt sr, lookupAssoc rb.content "multipart/form-data" = some mt ∧
              mt.schema = some sr ∧ sr.ref = "") ∨
           (lookupAssoc rb.content "multipart/form-data" = none ∧
            ∃ mt sr, lookupAssoc rb.content "application/json" = some mt ∧
              mt.schema = some sr ∧ sr.ref = "")))) ∧
    (∀ (methodName : String) (op : OperationM) (rb : RequestBodyM)
        (mt : MediaTypeM) (sr : SchemaRef),
      op.requestBody = some rb →
      lookupAssoc rb.content "application/json" = some mt →
      mt.schema = some sr → sr.ref ≠ "" →
      lookupAssoc rb.content "multipart/form-data" = none →
      requestTypeFor methodName op = toPascalCase (getRefName sr.ref)) := by
  constructor
  · unfold gatherRequestBodies
    rw [lookup_gather_paths]
    simp only [lookupAssoc, Option.isSome_none, Bool.false_eq_true, or_false]
    constructor
    · rintro ⟨pi, o, v, hmem, hop, he⟩
      have hch := (opRequestBodyEntry_iff o opID).mp ⟨v, he⟩
      exact ⟨pi, o, hmem, hop, hch.1, hch.2.1, hch.2.2⟩
    · rintro ⟨pi, o, hmem, hop, h1, h2, h3⟩
      obtain ⟨v, he⟩ := (opRequestBodyEntry_iff o opID).mpr ⟨h1, h2, h3⟩
      exact ⟨pi, o, v, hmem, hop, he⟩
  · intro methodName op rb mt sr hrb hj hs hr hmp
    unfold requestTypeFor
    simp only [hrb, hj, hs, hmp]
    rw [if_pos hr]

/-- The C10 counterexample operation: a `$ref` multipart schema next to an
inline json schema. -/
def c10Op : OperationM :=
  ⟨"createFoo",
    some ⟨[("multipart/form-data", ⟨some (.mk "#/components/schemas/X" none)⟩),
           ("application/json",
             ⟨some (.mk "" (some (.mk (some ["object"]) "" false [] [] [] none)))⟩)]⟩,
    []⟩

/-- The C10 counterexample document. -/
def c10Doc : DocM := ⟨[("/foo", ⟨none, some c10Op, none, none, none⟩)], []⟩

/-- C10 counterexample: `createFoo` declares an inline `application/json`
body schema and has a non-empty identifier, so the claim as stated demands a
synthesized `CreateFooRequest` type; but the operation's
`multipart/form-data` entry is a `$ref`, whose `continue` skips the json
block, and nothing is gathered — no request type definition is emitted. -/
theorem c10_counterexample :
  c10Op.operationID = "createFoo" ∧
  ((c10Op.requestBody.bind (fun rb => lookupAssoc rb.content "application/json")).bind
    MediaTypeM.schema).map SchemaRef.ref = some "" ∧
  (gatherRequestBodies c10Doc).map Prod.fst = [] ∧
  (getTypeDefinitions c10Doc).length = 0 := by
  exact ⟨rfl, rfl, rfl, rfl⟩

/-- A gathering operation for the C10 witness: inline json body, no
multipart. -/
def c10GoodOp : OperationM :=
  ⟨"createBar",
    some ⟨[("application/json",
      ⟨some (.mk "" (some (.mk (some ["object"]) "" false [] [] [] none)))⟩)]⟩,
    []⟩

/-- The path item of the C10 witness document. -/
def c10GoodPi : PathItemM := ⟨none, some c10GoodOp, none, none, none⟩

/-- The C10 witness document. -/
def c10GoodDoc : DocM := ⟨[("/bar", c10GoodPi)], []⟩

/-- A `$ref`-bodied operation for the payload-naming part of the C10
witness. -/
def c10RefOp : OperationM :=
  ⟨"updateBar",
    some ⟨[("application/json", ⟨some (.mk "#/components/schemas/BarBody" none)⟩)]⟩,
    []⟩

/-- C10 witness: the emission rule applied to a concrete gathering document,
and the payload naming applied to a concrete `$ref`-bodied operation. -/
theorem c10_request_type_emission_witness :
  (lookupAssoc (gatherRequestBodies c10GoodDoc) "createBar").isSome = true ∧
  requestTypeFor "updateBar" c10RefOp =
    toPascalCase (getRefName "#/components/schemas/BarBody") :=
  ⟨(c10_request_type_emission c10GoodDoc "createBar").1.mpr
      ⟨c10GoodPi, c10GoodOp, List.mem_singleton.mpr rfl, List.mem_cons_self _ _,
        rfl, by decide,
        ⟨[("application/json",
          ⟨some (.mk "" (some (.mk (some ["object"]) "" false [] [] [] none)))⟩)]⟩,
        rfl,
        Or.inr ⟨rfl,
          ⟨some (.mk "" (some (.mk (some ["object"]) "" false [] [] [] none)))⟩,
          .mk "" (some (.mk (some ["object"]) "" false [] [] [] none)),
          rfl, rfl, rfl⟩⟩,
    (c10_request_type_emission c10GoodDoc "createBar").2 "updateBar" c10RefOp
      ⟨[("application/json", ⟨some (.mk "#/components/schemas/BarBody" none)⟩)]⟩
      ⟨some (.mk "#/components/schemas/BarBody" none)⟩
      (.mk "#/components/schemas/BarBody" none)
      rfl rfl rfl (by decide) rfl⟩

end SdkGen
